import Mathlib

/-!
Verification of `scripts/validate.py`, the assignment-governance checker.

Paths are modelled as their `pathlib` part sequences (`List String`); an
absolute path such as `/repo/q1/src/a.py` is `["/", "repo", "q1", "src", "a.py"]`.
The filesystem is a static snapshot: a list of files (each with its byte size
and its permissively-decoded line count) together with the list of directories
present.  Python exceptions that the script does not catch are modelled with
`Except Unit`; exceptions it catches (`relative_to` in the modification-scope
block, the broad `except` around the git subprocess) are resolved inside the
corresponding definitions, exactly as the source resolves them.
-/

/-- A filesystem path as its sequence of `pathlib` parts. -/
abbrev PyPath := List String

/-- Splitting a character list on a separator character, keeping empty
pieces (the helper behind the string-split operations below).  The second
argument accumulates the current piece in reverse. -/
def splitOnChar (sep : Char) : List Char → List Char → List (List Char)
  | [], acc => [acc.reverse]
  | c :: cs, acc =>
      if c = sep then acc.reverse :: splitOnChar sep cs []
      else splitOnChar sep cs (c :: acc)

/-- Python `str.strip()`: drop leading and trailing whitespace. -/
def pyStrip (s : String) : String :=
  String.mk (((s.data.dropWhile Char.isWhitespace).reverse.dropWhile
    Char.isWhitespace).reverse)

/-- Python `str.splitlines()` for newline-separated text such as the
`git diff --name-only` output. -/
def pySplitLines (s : String) : List String :=
  (splitOnChar '\n' s.data []).map String.mk

/-- Python `str.startswith(pre)`. -/
def pyStartsWith (s pre : String) : Bool := pre.data.isPrefixOf s.data

/-- Python `str.endswith(suf)`, the effect of the `*ext` glob pattern. -/
def pyEndsWith (s suf : String) : Bool := suf.data.isSuffixOf s.data

/-- Python `str.lower()`. -/
def pyLower (s : String) : String := String.mk (s.data.map Char.toLower)

/-- Python string comparison: lexicographic by code point. -/
def charListLe : List Char → List Char → Bool
  | [], _ => true
  | _ :: _, [] => false
  | a :: as, b :: bs =>
      if a.val < b.val then true
      else if b.val < a.val then false
      else charListLe as bs

/-- `PurePath.name`: the final component, `""` for the empty part sequence
(Python's `Path(".")`). -/
def pyName (p : PyPath) : String := (p.getLast?).getD ""

/-- `PurePath.suffix`: the substring from the last dot of the name, but only
when that dot is strictly inside the name (`0 < i < len(name) - 1` in the
CPython source); otherwise `""`. -/
def pySuffix (name : String) : String :=
  let parts := splitOnChar '.' name.data []
  if parts.length ≤ 1 then ""
  else
    let lastPart := parts.getLastD []
    if lastPart = [] then ""
    else if name.data.length > lastPart.length + 1 then String.mk ('.' :: lastPart)
    else ""

/-- `Path.relative_to(root)`: `some` of the part suffix when `root`'s parts
are a prefix of `p`'s, `none` when the call would raise `ValueError`. -/
def pyRelativeTo (root p : PyPath) : Option PyPath :=
  if root.isPrefixOf p then some (p.drop root.length) else none

/-- Splitting a relative path string on `/`, dropping empty components and
single-dot components, as `pathlib` does when parsing. -/
def pySplitRel (s : String) : List String :=
  ((splitOnChar '/' s.data []).map String.mk).filter
    (fun seg => seg ≠ "" && seg ≠ ".")

/-- `root / s` for a path string `s`: if `s` is absolute it replaces `root`,
otherwise its components are appended to `root`'s parts. -/
def pyJoin (root : PyPath) (s : String) : PyPath :=
  if pyStartsWith s "/" then "/" :: pySplitRel s else root ++ pySplitRel s

/-- The `Constraints` dataclass of `validate.py` with its default field
values.  `question_pfx` models the `question_prefix` field.  The Python sets
are modelled as duplicate-free lists. -/
structure Constraints where
  max_src_files : Nat := 5
  max_line_count : Nat := 500
  max_asset_size_bytes : Nat := 5 * 1024 * 1024
  question_pfx : String := "q"
  target_ext : String := ".py"
  ignored_parts : List String :=
    [".venv", "venv", ".git", "__pycache__", ".pytest_cache", ".devcontainer", "infra"]
  asset_exts : List String := [".jpg", ".jpeg", ".png", ".mp4", ".mov", ".avi"]
  whitelisted_files : List String :=
    [".gitignore", "README.md", "pyproject.toml", "uv.lock", "Makefile", "config.yaml"]

/-- The default-constructed `Constraints()` used by `main`. -/
def defaultConstraints : Constraints := {}

/-- One file of the filesystem snapshot: its absolute part sequence, its
`stat().st_size`, and the number of lines obtained by reading it with
`encoding="utf-8", errors="ignore"`. -/
structure FSFile where
  path : PyPath
  size : Nat
  lineCount : Nat
deriving DecidableEq

/-- A static filesystem snapshot: the regular files and the directories. -/
structure FS where
  files : List FSFile
  dirs : List PyPath
deriving DecidableEq

/-- `p.is_file()` on the snapshot. -/
def FS.isFile (fs : FS) (p : PyPath) : Bool :=
  fs.files.any (fun f => f.path == p)

/-- `p.is_dir()` on the snapshot. -/
def FS.isDir (fs : FS) (p : PyPath) : Bool :=
  fs.dirs.contains p

/-- `p.exists()` on the snapshot. -/
def FS.pexists (fs : FS) (p : PyPath) : Bool :=
  fs.isFile p || fs.isDir p

/-- Every directory entry of the snapshot, of any kind: the regular files
followed by the directories.  `pathlib` globbing draws from these without
distinguishing the kind. -/
def FS.entries (fs : FS) : List PyPath :=
  fs.files.map (fun f => f.path) ++ fs.dirs

/-- `p.stat().st_size`: the recorded size for a regular file, `0` for
anything else (directory sizes are a few KiB and never reach the 5 MiB
asset bound, so they are modelled as `0`). -/
def FS.statSize (fs : FS) (p : PyPath) : Nat :=
  ((fs.files.find? (fun f => f.path == p)).map (fun f => f.size)).getD 0

/-- The permissively-decoded line count of a regular file. -/
def FS.lineCountOf (fs : FS) (p : PyPath) : Nat :=
  ((fs.files.find? (fun f => f.path == p)).map (fun f => f.lineCount)).getD 0

/-- `[p for p in root.rglob("*") if p.is_file()]`: the regular files strictly
under `root`, in the snapshot's enumeration order (`rglob` promises no
particular order). -/
def FS.rglobFiles (fs : FS) (root : PyPath) : List PyPath :=
  (fs.files.map (fun f => f.path)).filter
    (fun p => root.isPrefixOf p && !(p == root))

/-- `should_exclude(path, ignored_parts)` from `validate.py`. -/
def should_exclude (p : PyPath) (ignored_parts : List String) : Bool :=
  p.any (fun part => ignored_parts.contains part || pyStartsWith part ".")

/-- The full recursive enumeration used by the `is_local` branch of
`get_files_to_check` and by its fallback path: every file under `root`,
filtered by `should_exclude`. -/
def fullEnumeration (fs : FS) (root : PyPath) (ignored_parts : List String) :
    List PyPath :=
  (fs.rglobFiles root).filter (fun p => !should_exclude p ignored_parts)

/-- The candidate list built from a successful `git diff --name-only` output
`out`: each line is stripped, empty lines are dropped, and the rest are
joined onto `root` (`root / line.strip()`). -/
def gitCandidates (root : PyPath) (out : String) : List PyPath :=
  (pySplitLines (pyStrip out)).filterMap
    (fun line =>
      let s := pyStrip line
      if s = "" then none else some (pyJoin root s))

/-- `get_files_to_check(root, is_local, ignored_parts)`.  The subprocess call
is modelled by `git : Option String`: `none` when `check_output` raises (the
broad `except Exception: pass`), `some out` when it returns output `out`.
The `.strip()` on the output and the truthiness test `if result:` follow the
source: an empty stripped output falls through to the full enumeration. -/
def get_files_to_check (root : PyPath) (is_local : Bool)
    (ignored_parts : List String) (fs : FS) (git : Option String) : List PyPath :=
  if is_local then fullEnumeration fs root ignored_parts
  else
    match git with
    | some out =>
        if pyStrip out = "" then fullEnumeration fs root ignored_parts
        else (gitCandidates root out).filter (fun p => !should_exclude p ignored_parts)
    | none => fullEnumeration fs root ignored_parts

/-- `IS_INSTRUCTOR` parsing: `os.getenv("IS_INSTRUCTOR", "false").lower() == "true"`. -/
def isInstructorEnv (env : Option String) : Bool :=
  pyLower (env.getD "false") == "true"

/-- The violation messages appended by `main`, as structured values:
`assetTooLarge rel` for `"Asset {rel} exceeds 5MB."`,
`forbiddenModification rel` for `"Forbidden modification: {rel}."`,
`tooManyScripts qname` for `"{qname}/src has too many scripts."`, and
`lineLimitExceeded rel` for `"File {rel} > 500 lines."`. -/
inductive Violation where
  | assetTooLarge (rel : PyPath)
  | forbiddenModification (rel : PyPath)
  | tooManyScripts (qname : String)
  | lineLimitExceeded (rel : PyPath)
deriving DecidableEq

/-- The asset-size block of the per-file loop (lines 114-118).  The message
interpolates `path_obj.relative_to(root)` outside any `try`, so a candidate
that is not under `root` makes the script raise `ValueError` there: that is
the `.error` case. -/
def assetCheck (c : Constraints) (fs : FS) (root p : PyPath) :
    Except Unit (List Violation) :=
  if c.asset_exts.contains (pyLower (pySuffix (pyName p))) then
    if fs.statSize p > c.max_asset_size_bytes then
      match pyRelativeTo root p with
      | some rel => Except.ok [Violation.assetTooLarge rel]
      | none => Except.error ()
    else Except.ok []
  else Except.ok []

/-- The modification-scope block of the per-file loop (lines 120-130).  It
runs only when `not local and not is_instructor`; the `relative_to` call is
inside `try ... except ValueError: continue`, so failure to relativize skips
the file. -/
def modCheck (c : Constraints) (root : PyPath) (isLocal instr : Bool)
    (p : PyPath) : List Violation :=
  if isLocal || instr then []
  else
    match pyRelativeTo root p with
    | none => []
    | some rel =>
        if rel.contains "src" || rel.contains "assets"
            || c.whitelisted_files.contains (pyName rel) then []
        else [Violation.forbiddenModification rel]

/-- One iteration of the candidate loop of `main` (lines 110-130): skip the
path if it no longer exists, otherwise run the asset block then the
modification-scope block. -/
def processFile (c : Constraints) (fs : FS) (root : PyPath)
    (isLocal instr : Bool) (p : PyPath) : Except Unit (List Violation) :=
  if fs.pexists p then
    match assetCheck c fs root p with
    | Except.ok a => Except.ok (a ++ modCheck c root isLocal instr p)
    | Except.error e => Except.error e
  else Except.ok []

/-- The whole candidate loop, collecting each file's violations in order. -/
def evalCandidates (c : Constraints) (fs : FS) (root : PyPath)
    (isLocal instr : Bool) : List PyPath → Except Unit (List Violation)
  | [] => Except.ok []
  | p :: rest =>
      match processFile c fs root isLocal instr p with
      | Except.ok v =>
          match evalCandidates c fs root isLocal instr rest with
          | Except.ok vs => Except.ok (v ++ vs)
          | Except.error e => Except.error e
      | Except.error e => Except.error e

/-- Comparison key used by `sorted(...)` on `Path` objects (POSIX `pathlib`
orders paths by their string form). -/
def pathKey (p : PyPath) : String := String.intercalate "/" p

/-- The `sorted(...)` order on paths: lexicographic on the string key. -/
def pathLeB (a b : PyPath) : Bool := charListLe (pathKey a).data (pathKey b).data

/-- The `q_dirs` computation (lines 132-138): direct children of `root` that
are directories and whose name starts with the question prefix, sorted. -/
def questionDirs (fs : FS) (root : PyPath) (pfx : String) : List PyPath :=
  (fs.dirs.filter
      (fun d => root.isPrefixOf d && d.length == root.length + 1
        && pyStartsWith (pyName d) pfx)).insertionSort
    (fun a b => pathLeB a b = true)

/-- `list(src_path.glob(f"*{target_ext}"))`: the entries of ANY kind
(regular files and directories alike — `glob` does not distinguish)
directly inside `src` whose name ends with the target extension, in
enumeration order. -/
def globTargetFiles (fs : FS) (src : PyPath) (ext : String) : List PyPath :=
  fs.entries.filter
    (fun p => src.isPrefixOf p && p.length == src.length + 1
      && pyEndsWith (pyName p) ext)

/-- One iteration of the line-count loop (lines 148-155):
`open(f, "r", encoding="utf-8", errors="ignore")` succeeds for a regular
file and raises an uncaught `IsADirectoryError` for a directory — that is
the `.error` case.  `f.relative_to(root)` in the message always succeeds
because `f` lies under a question directory, a child of `root`, so it is
written as a plain `drop`. -/
def lineCountCheck (c : Constraints) (fs : FS) (root f : PyPath) :
    Except Unit (List Violation) :=
  if fs.isFile f then
    Except.ok
      (if fs.lineCountOf f > c.max_line_count
        then [Violation.lineLimitExceeded (f.drop root.length)] else [])
  else Except.error ()

/-- Running an exception-throwing per-item step over a list, concatenating
the produced violations; the first raise aborts the whole traversal (and
with it the run, since nothing catches it). -/
def collectExcept {α : Type} (g : α → Except Unit (List Violation)) :
    List α → Except Unit (List Violation)
  | [] => Except.ok []
  | x :: rest =>
      match g x with
      | Except.ok v =>
          match collectExcept g rest with
          | Except.ok vs => Except.ok (v ++ vs)
          | Except.error e => Except.error e
      | Except.error e => Except.error e

/-- The value of an evaluation that did not raise (`[]` for a raise; only
used under a no-raise hypothesis). -/
def exVal : Except Unit (List Violation) → List Violation
  | Except.ok v => v
  | Except.error _ => []

/-- The per-question-directory body of the loop at lines 139-155: if the
`src` subdirectory exists, one `tooManyScripts` violation when the glob
entry count exceeds the maximum, then the line-count loop over those same
entries, which raises at the first entry that is not a regular file; the
violations appended before a raise die with the process and are never
reported. -/
def qDirBlock (c : Constraints) (fs : FS) (root q : PyPath) :
    Except Unit (List Violation) :=
  if fs.pexists (q ++ ["src"]) then
    match collectExcept (lineCountCheck c fs root)
        (globTargetFiles fs (q ++ ["src"]) c.target_ext) with
    | Except.ok lvs =>
        Except.ok
          ((if (globTargetFiles fs (q ++ ["src"]) c.target_ext).length >
                c.max_src_files
            then [Violation.tooManyScripts (pyName q)] else [])
          ++ lvs)
    | Except.error e => Except.error e
  else Except.ok []

/-- The question-directory rules of `main` (lines 132-155), independent of
the candidate list and of the mode flags.  `root.iterdir()` raises an
uncaught `FileNotFoundError` (missing root) or `NotADirectoryError` (root a
file) when `root` is not a directory — the `.error` case. -/
def qDirViolations (c : Constraints) (fs : FS) (root : PyPath) :
    Except Unit (List Violation) :=
  if fs.isDir root then
    collectExcept (qDirBlock c fs root) (questionDirs fs root c.question_pfx)
  else Except.error ()

/-- Everything `main` appends to `violations`, in program order: the
candidate loop followed by the question-directory loop; an uncaught raise
in either aborts the run. -/
def collectViolations (c : Constraints) (fs : FS) (root : PyPath)
    (isLocal instr : Bool) (git : Option String) : Except Unit (List Violation) :=
  match evalCandidates c fs root isLocal instr
      (get_files_to_check root isLocal c.ignored_parts fs git) with
  | Except.ok cvs =>
      match qDirViolations c fs root with
      | Except.ok qvs => Except.ok (cvs ++ qvs)
      | Except.error e => Except.error e
  | Except.error e => Except.error e

/-- The observable end of a run: the violations table (before `sys.exit(1)`)
or the success message (falling through to exit status `0`). -/
inductive RunOutcome where
  | table (vs : List Violation)
  | success
deriving DecidableEq

/-- The tail of `main` (lines 157-168): render the table and exit `1` when
any violation was collected, otherwise print the success line and exit `0`. -/
def runMain (c : Constraints) (fs : FS) (root : PyPath)
    (isLocal instr : Bool) (git : Option String) :
    Except Unit (RunOutcome × Nat) :=
  match collectViolations c fs root isLocal instr git with
  | Except.ok vs =>
      if vs.isEmpty then Except.ok (RunOutcome.success, 0)
      else Except.ok (RunOutcome.table vs, 1)
  | Except.error e => Except.error e

/-- Count of `forbiddenModification` violations in a list. -/
def countForbidden (vs : List Violation) : Nat :=
  vs.countP (fun v => match v with
    | Violation.forbiddenModification _ => true
    | _ => false)

/-- Count of one specific violation value in a list. -/
def countV (vs : List Violation) (t : Violation) : Nat := vs.count t

theorem countV_append (a b : List Violation) (t : Violation) :
    countV (a ++ b) t = countV a t + countV b t :=
  List.count_append t a b

theorem countV_eq_zero {vs : List Violation} {t : Violation} (h : t ∉ vs) :
    countV vs t = 0 :=
  List.count_eq_zero.mpr h

theorem processFile_of_not_exists {c : Constraints} {fs : FS} {root p : PyPath}
    {isLocal instr : Bool} (h : fs.pexists p = false) :
    processFile c fs root isLocal instr p = Except.ok [] := by
  simp [processFile, h]

theorem mem_modCheck {c : Constraints} {root p : PyPath} {isLocal instr : Bool}
    {v : Violation} (h : v ∈ modCheck c root isLocal instr p) :
    ∃ r, pyRelativeTo root p = some r ∧ v = Violation.forbiddenModification r ∧
      isLocal = false ∧ instr = false := by
  unfold modCheck at h
  split at h
  · simp at h
  · rename_i hmode
    simp only [Bool.or_eq_true] at hmode
    push_neg at hmode
    rcases hmode with ⟨hl, hi⟩
    split at h
    · simp at h
    · rename_i r hrel
      split at h
      · simp at h
      · simp only [List.mem_singleton] at h
        exact ⟨r, hrel, h, Bool.not_eq_true _ ▸ hl, Bool.not_eq_true _ ▸ hi⟩

theorem mem_assetCheck {c : Constraints} {fs : FS} {root p : PyPath}
    {a : List Violation} {v : Violation}
    (ha : assetCheck c fs root p = Except.ok a) (h : v ∈ a) :
    ∃ r, pyRelativeTo root p = some r ∧ v = Violation.assetTooLarge r := by
  unfold assetCheck at ha
  split at ha
  · split at ha
    · split at ha
      · rename_i r hrel
        cases ha
        simp only [List.mem_singleton] at h
        exact ⟨r, hrel, h⟩
      · cases ha
    · cases ha
      simp at h
  · cases ha
    simp at h

theorem mem_processFile {c : Constraints} {fs : FS} {root p : PyPath}
    {isLocal instr : Bool} {w : List Violation} {v : Violation}
    (hw : processFile c fs root isLocal instr p = Except.ok w) (h : v ∈ w) :
    fs.pexists p = true ∧
      ∃ r, pyRelativeTo root p = some r ∧
        (v = Violation.assetTooLarge r ∨ v = Violation.forbiddenModification r) := by
  unfold processFile at hw
  split at hw
  · rename_i hex
    refine ⟨hex, ?_⟩
    split at hw
    · rename_i a ha
      cases hw
      rcases List.mem_append.mp h with h | h
      · rcases mem_assetCheck ha h with ⟨r, hr, hv⟩
        exact ⟨r, hr, Or.inl hv⟩
      · rcases mem_modCheck h with ⟨r, hr, hv, _⟩
        exact ⟨r, hr, Or.inr hv⟩
    · cases hw
  · cases hw
    simp at h

theorem evalCandidates_ok_mem {c : Constraints} {fs : FS} {root : PyPath}
    {isLocal instr : Bool} {cs : List PyPath} {vs : List Violation} {v : Violation}
    (hvs : evalCandidates c fs root isLocal instr cs = Except.ok vs) (h : v ∈ vs) :
    ∃ p ∈ cs, ∃ w, processFile c fs root isLocal instr p = Except.ok w ∧ v ∈ w := by
  induction cs generalizing vs with
  | nil =>
      cases hvs
      simp at h
  | cons p rest ih =>
      unfold evalCandidates at hvs
      split at hvs
      · rename_i w hw
        split at hvs
        · rename_i ws hws
          cases hvs
          rcases List.mem_append.mp h with h | h
          · exact ⟨p, List.mem_cons_self p rest, w, hw, h⟩
          · rcases ih hws h with ⟨p', hp', w', hw', hv'⟩
            exact ⟨p', List.mem_cons_of_mem p hp', w', hw', hv'⟩
        · cases hvs
      · cases hvs

theorem evalCandidates_ok_of {c : Constraints} {fs : FS} {root : PyPath}
    {isLocal instr : Bool} {cs : List PyPath}
    (h : ∀ p ∈ cs, ∃ w, processFile c fs root isLocal instr p = Except.ok w) :
    ∃ vs, evalCandidates c fs root isLocal instr cs = Except.ok vs := by
  induction cs with
  | nil => exact ⟨[], rfl⟩
  | cons p rest ih =>
      rcases h p (List.mem_cons_self p rest) with ⟨w, hw⟩
      rcases ih (fun q hq => h q (List.mem_cons_of_mem p hq)) with ⟨vs, hvs⟩
      exact ⟨w ++ vs, by unfold evalCandidates; rw [hw, hvs]⟩

theorem evalCandidates_cons {c : Constraints} {fs : FS} {root : PyPath}
    {isLocal instr : Bool} {p : PyPath} {cs : List PyPath}
    {w vs : List Violation}
    (hw : processFile c fs root isLocal instr p = Except.ok w)
    (hvs : evalCandidates c fs root isLocal instr cs = Except.ok vs) :
    evalCandidates c fs root isLocal instr (p :: cs) = Except.ok (w ++ vs) := by
  unfold evalCandidates
  rw [hw, hvs]

theorem mem_rglobFiles {fs : FS} {root p : PyPath} :
    p ∈ fs.rglobFiles root ↔
      ((∃ f ∈ fs.files, f.path = p) ∧ root <+: p ∧ p ≠ root) := by
  unfold FS.rglobFiles
  simp only [List.mem_filter, List.mem_map, Bool.and_eq_true, Bool.not_eq_true',
    beq_eq_false_iff_ne, ne_eq, List.isPrefixOf_iff_prefix]

theorem mem_fullEnumeration {fs : FS} {root p : PyPath} {ign : List String} :
    p ∈ fullEnumeration fs root ign ↔
      ((∃ f ∈ fs.files, f.path = p) ∧ root <+: p ∧ p ≠ root ∧
        should_exclude p ign = false) := by
  unfold fullEnumeration
  simp only [List.mem_filter, mem_rglobFiles, Bool.not_eq_true']
  tauto

theorem mem_gitCandidates {root p : PyPath} {out : String} :
    p ∈ gitCandidates root out ↔
      ∃ line ∈ pySplitLines (pyStrip out),
        pyStrip line ≠ "" ∧ p = pyJoin root (pyStrip line) := by
  unfold gitCandidates
  simp only [List.mem_filterMap]
  constructor
  · rintro ⟨line, hline, hsome⟩
    by_cases hs : pyStrip line = ""
    · simp [hs] at hsome
    · simp only [hs, if_neg] at hsome
      exact ⟨line, hline, hs, (Option.some_inj.mp hsome).symm⟩
  · rintro ⟨line, hline, hs, rfl⟩
    exact ⟨line, hline, by simp [hs]⟩

theorem mem_get_files_to_check_excl {root p : PyPath} {isLocal : Bool}
    {ign : List String} {fs : FS} {git : Option String}
    (h : p ∈ get_files_to_check root isLocal ign fs git) :
    should_exclude p ign = false := by
  unfold get_files_to_check at h
  split at h
  · exact (mem_fullEnumeration.mp h).2.2.2
  · split at h
    · split at h
      · exact (mem_fullEnumeration.mp h).2.2.2
      · simpa using (List.mem_filter.mp h).2
    · exact (mem_fullEnumeration.mp h).2.2.2

theorem prefix_eq_append_drop {root p : PyPath} (h : root <+: p) :
    p = root ++ p.drop root.length :=
  (List.prefix_iff_eq_append.mp h).symm

theorem eq_of_drop_eq {root a b : PyPath} (ha : root <+: a) (hb : root <+: b)
    (h : a.drop root.length = b.drop root.length) : a = b := by
  rw [prefix_eq_append_drop ha, prefix_eq_append_drop hb, h]

theorem child_eq_append {root d : PyPath} (hpre : root <+: d)
    (hlen : d.length = root.length + 1) : d = root ++ [pyName d] := by
  have hd := prefix_eq_append_drop hpre
  have hlt : (d.drop root.length).length = 1 := by
    rw [List.length_drop, hlen]
    omega
  rcases List.length_eq_one.mp hlt with ⟨x, hx⟩
  have hname : pyName d = x := by
    unfold pyName
    rw [hd, hx, List.getLast?_concat]
    rfl
  rw [hname, ← hx]
  exact hd

theorem prefix_eq_of_length_eq {a b p : PyPath} (ha : a <+: p) (hb : b <+: p)
    (h : a.length = b.length) : a = b := by
  rw [List.prefix_iff_eq_take.mp ha, List.prefix_iff_eq_take.mp hb, h]

theorem mem_globTargetFiles {fs : FS} {src p : PyPath} {ext : String} :
    p ∈ globTargetFiles fs src ext ↔
      (((∃ f ∈ fs.files, f.path = p) ∨ p ∈ fs.dirs) ∧ src <+: p ∧
        p.length = src.length + 1 ∧ pyEndsWith (pyName p) ext = true) := by
  unfold globTargetFiles FS.entries
  rw [List.mem_filter, List.mem_append]
  simp only [List.mem_map, Bool.and_eq_true, beq_iff_eq,
    List.isPrefixOf_iff_prefix]
  constructor
  · rintro ⟨hm, ⟨hpre, hlen⟩, hext⟩
    refine ⟨?_, hpre, hlen, hext⟩
    rcases hm with ⟨f, hf, hfp⟩ | hd
    · exact Or.inl ⟨f, hf, hfp⟩
    · exact Or.inr hd
  · rintro ⟨hm, hpre, hlen, hext⟩
    refine ⟨?_, ⟨hpre, hlen⟩, hext⟩
    rcases hm with ⟨f, hf, hfp⟩ | hd
    · exact Or.inl ⟨f, hf, hfp⟩
    · exact Or.inr hd

theorem mem_questionDirs {fs : FS} {root d : PyPath} {pfx : String} :
    d ∈ questionDirs fs root pfx ↔
      (d ∈ fs.dirs ∧ root <+: d ∧ d.length = root.length + 1 ∧
        pyStartsWith (pyName d) pfx = true) := by
  unfold questionDirs
  rw [(List.perm_insertionSort _ _).mem_iff, List.mem_filter]
  simp only [Bool.and_eq_true, beq_iff_eq, List.isPrefixOf_iff_prefix]
  tauto

theorem questionDirs_nodup {fs : FS} {root : PyPath} {pfx : String}
    (hnd : fs.dirs.Nodup) : (questionDirs fs root pfx).Nodup := by
  unfold questionDirs
  exact ((List.perm_insertionSort _ _).nodup_iff).mpr (hnd.filter _)

theorem countV_flatMap_zero {α : Type} (L : List α) (f : α → List Violation)
    (t : Violation) (h : ∀ x ∈ L, countV (f x) t = 0) :
    countV (L.flatMap f) t = 0 := by
  induction L with
  | nil => rfl
  | cons a L ih =>
      rw [List.flatMap_cons, countV_append, h a (List.mem_cons_self a L),
        ih (fun x hx => h x (List.mem_cons_of_mem a hx))]

theorem countV_flatMap_nodup {α : Type} {L : List α} {f : α → List Violation}
    {t : Violation} {q : α} (hq : q ∈ L) (hnd : L.Nodup)
    (hz : ∀ x ∈ L, x ≠ q → countV (f x) t = 0) :
    countV (L.flatMap f) t = countV (f q) t := by
  induction L with
  | nil => simp at hq
  | cons a L ih =>
      rw [List.flatMap_cons, countV_append]
      rw [List.nodup_cons] at hnd
      rcases List.mem_cons.mp hq with rfl | hq'
      · rw [countV_flatMap_zero L f t
          (fun x hx => hz x (List.mem_cons_of_mem q hx)
            (fun hxq => hnd.1 (hxq ▸ hx)))]
        omega
      · have hne : a ≠ q := fun h => hnd.1 (h ▸ hq')
        rw [hz a (List.mem_cons_self a L) hne,
          ih hq' hnd.2 (fun x hx hxq => hz x (List.mem_cons_of_mem a hx) hxq)]
        omega

theorem countV_nil (t : Violation) : countV [] t = 0 := rfl

theorem countV_singleton_self (v : Violation) : countV [v] v = 1 := by
  simp [countV, List.count_cons]

theorem countV_singleton_ne {v t : Violation} (h : v ≠ t) : countV [v] t = 0 := by
  simp [countV, List.count_cons, h]

theorem mem_lineCountCheck {c : Constraints} {fs : FS} {root f : PyPath}
    {w : List Violation} {v : Violation}
    (hw : lineCountCheck c fs root f = Except.ok w) (hv : v ∈ w) :
    v = Violation.lineLimitExceeded (f.drop root.length) ∧
      fs.isFile f = true ∧ c.max_line_count < fs.lineCountOf f := by
  unfold lineCountCheck at hw
  split at hw
  · rename_i hfile
    cases hw
    split at hv
    · rename_i hcnt
      simp only [List.mem_singleton] at hv
      exact ⟨hv, hfile, hcnt⟩
    · simp at hv
  · cases hw

theorem collectExcept_ok_mem {α : Type} {g : α → Except Unit (List Violation)}
    {l : List α} {vs : List Violation} {v : Violation}
    (h : collectExcept g l = Except.ok vs) (hv : v ∈ vs) :
    ∃ x ∈ l, ∃ w, g x = Except.ok w ∧ v ∈ w := by
  induction l generalizing vs with
  | nil =>
      cases h
      simp at hv
  | cons x rest ih =>
      unfold collectExcept at h
      split at h
      · rename_i w hw
        split at h
        · rename_i ws hws
          cases h
          rcases List.mem_append.mp hv with hv | hv
          · exact ⟨x, List.mem_cons_self x rest, w, hw, hv⟩
          · rcases ih hws hv with ⟨y, hy, w2, hw2, hv2⟩
            exact ⟨y, List.mem_cons_of_mem x hy, w2, hw2, hv2⟩
        · cases h
      · cases h

theorem collectExcept_ok_of {α : Type} {g : α → Except Unit (List Violation)}
    {l : List α} (h : ∀ x ∈ l, ∃ w, g x = Except.ok w) :
    ∃ vs, collectExcept g l = Except.ok vs := by
  induction l with
  | nil => exact ⟨[], rfl⟩
  | cons x rest ih =>
      rcases h x (List.mem_cons_self x rest) with ⟨w, hw⟩
      rcases ih (fun y hy => h y (List.mem_cons_of_mem x hy)) with ⟨vs, hvs⟩
      exact ⟨w ++ vs, by unfold collectExcept; rw [hw, hvs]⟩

theorem collectExcept_ok_forall {α : Type} {g : α → Except Unit (List Violation)}
    {l : List α} {vs : List Violation}
    (h : collectExcept g l = Except.ok vs) :
    ∀ x ∈ l, ∃ w, g x = Except.ok w := by
  induction l generalizing vs with
  | nil => simp
  | cons x rest ih =>
      unfold collectExcept at h
      split at h
      · rename_i w hw
        split at h
        · rename_i ws hws
          intro y hy
          rcases List.mem_cons.mp hy with rfl | hy'
          · exact ⟨w, hw⟩
          · exact ih hws y hy'
        · cases h
      · cases h

theorem collectExcept_ok_eq_flatMap {α : Type}
    {g : α → Except Unit (List Violation)} {l : List α} {vs : List Violation}
    (h : collectExcept g l = Except.ok vs) :
    vs = l.flatMap (fun x => exVal (g x)) := by
  induction l generalizing vs with
  | nil =>
      cases h
      rfl
  | cons x rest ih =>
      unfold collectExcept at h
      split at h
      · rename_i w hw
        split at h
        · rename_i ws hws
          cases h
          rw [List.flatMap_cons, ← ih hws]
          unfold exVal
          rw [hw]
        · cases h
      · cases h

theorem qDirBlock_ok_decomp {c : Constraints} {fs : FS} {root q : PyPath}
    {w : List Violation} (h : qDirBlock c fs root q = Except.ok w) :
    (fs.pexists (q ++ ["src"]) = false ∧ w = []) ∨
    (fs.pexists (q ++ ["src"]) = true ∧ ∃ lvs,
      collectExcept (lineCountCheck c fs root)
          (globTargetFiles fs (q ++ ["src"]) c.target_ext) = Except.ok lvs ∧
      w = (if (globTargetFiles fs (q ++ ["src"]) c.target_ext).length >
            c.max_src_files
          then [Violation.tooManyScripts (pyName q)] else []) ++ lvs) := by
  unfold qDirBlock at h
  split at h
  · rename_i hex
    split at h
    · rename_i lvs hlvs
      cases h
      exact Or.inr ⟨hex, lvs, hlvs, rfl⟩
    · cases h
  · rename_i hex
    cases h
    exact Or.inl ⟨by simpa using hex, rfl⟩

theorem countV_lineCount_collect {c : Constraints} {fs : FS} {root : PyPath}
    {l : List PyPath} {lvs : List Violation} {t : Violation}
    (h : collectExcept (lineCountCheck c fs root) l = Except.ok lvs)
    (ht : ∀ f ∈ l, ∀ w, lineCountCheck c fs root f = Except.ok w →
      countV w t = 0) :
    countV lvs t = 0 := by
  rw [collectExcept_ok_eq_flatMap h]
  refine countV_flatMap_zero _ _ _ (fun f hf => ?_)
  rcases collectExcept_ok_forall h f hf with ⟨w, hw⟩
  have : exVal (lineCountCheck c fs root f) = w := by
    unfold exVal
    rw [hw]
  rw [this]
  exact ht f hf w hw

theorem countV_exVal_qDirBlock_tooMany_other {c : Constraints} {fs : FS}
    {root q : PyPath} {n : String} (h : pyName q ≠ n) :
    countV (exVal (qDirBlock c fs root q)) (Violation.tooManyScripts n) = 0 := by
  cases hq : qDirBlock c fs root q with
  | error e =>
      unfold exVal
      rfl
  | ok w =>
      unfold exVal
      rcases qDirBlock_ok_decomp hq with ⟨_, rfl⟩ | ⟨_, lvs, hlvs, rfl⟩
      · rfl
      · rw [countV_append]
        rw [countV_lineCount_collect hlvs (fun f hf w2 hw2 => by
          refine countV_eq_zero (fun hm => ?_)
          rcases mem_lineCountCheck hw2 hm with ⟨hveq, _, _⟩
          exact Violation.noConfusion hveq)]
        split
        · rw [countV_singleton_ne (by simpa using h)]
        · rw [countV_nil]

theorem countV_qDirBlock_tooMany_self {c : Constraints} {fs : FS}
    {root q : PyPath} {w : List Violation}
    (hw : qDirBlock c fs root q = Except.ok w) :
    countV w (Violation.tooManyScripts (pyName q)) =
      if fs.pexists (q ++ ["src"]) = true ∧
          c.max_src_files < (globTargetFiles fs (q ++ ["src"]) c.target_ext).length
        then 1 else 0 := by
  rcases qDirBlock_ok_decomp hw with ⟨hex, rfl⟩ | ⟨hex, lvs, hlvs, rfl⟩
  · rw [countV_nil, if_neg (fun hc => by rw [hex] at hc; cases hc.1)]
  · rw [countV_append]
    rw [countV_lineCount_collect hlvs (fun f hf w2 hw2 => by
      refine countV_eq_zero (fun hm => ?_)
      rcases mem_lineCountCheck hw2 hm with ⟨hveq, _, _⟩
      exact Violation.noConfusion hveq)]
    split
    · rename_i hlen
      rw [countV_singleton_self, if_pos ⟨hex, hlen⟩]
    · rename_i hlen
      rw [countV_nil, if_neg (fun hc => hlen hc.2)]

theorem countV_exVal_qDirBlock_lineLimit_other {c : Constraints} {fs : FS}
    {root q : PyPath} {r : PyPath}
    (h : ∀ f ∈ globTargetFiles fs (q ++ ["src"]) c.target_ext,
      f.drop root.length ≠ r) :
    countV (exVal (qDirBlock c fs root q))
      (Violation.lineLimitExceeded r) = 0 := by
  cases hq : qDirBlock c fs root q with
  | error e =>
      unfold exVal
      rfl
  | ok w =>
      unfold exVal
      rcases qDirBlock_ok_decomp hq with ⟨_, rfl⟩ | ⟨_, lvs, hlvs, rfl⟩
      · rfl
      · rw [countV_append]
        rw [countV_lineCount_collect hlvs (fun f hf w2 hw2 => by
          refine countV_eq_zero (fun hm => ?_)
          rcases mem_lineCountCheck hw2 hm with ⟨hveq, _, _⟩
          have hdrop : f.drop root.length = r := by
            injection hveq with hh
            exact hh.symm
          exact h f hf hdrop)]
        split
        · rw [countV_singleton_ne (by simp)]
        · rw [countV_nil]

theorem countV_qDirBlock_lineLimit_self {c : Constraints} {fs : FS}
    {root q f0 : PyPath} {w : List Violation}
    (hw : qDirBlock c fs root q = Except.ok w)
    (hnd : (globTargetFiles fs (q ++ ["src"]) c.target_ext).Nodup)
    (hf0 : f0 ∈ globTargetFiles fs (q ++ ["src"]) c.target_ext)
    (hex : fs.pexists (q ++ ["src"]) = true)
    (hinj : ∀ f ∈ globTargetFiles fs (q ++ ["src"]) c.target_ext,
      f.drop root.length = f0.drop root.length → f = f0) :
    countV w (Violation.lineLimitExceeded (f0.drop root.length)) =
      if c.max_line_count < fs.lineCountOf f0 then 1 else 0 := by
  rcases qDirBlock_ok_decomp hw with ⟨hex2, rfl⟩ | ⟨_, lvs, hlvs, rfl⟩
  · rw [hex] at hex2
    cases hex2
  · rw [countV_append]
    have h1 : countV
        (if (globTargetFiles fs (q ++ ["src"]) c.target_ext).length >
            c.max_src_files
          then [Violation.tooManyScripts (pyName q)] else [])
        (Violation.lineLimitExceeded (f0.drop root.length)) = 0 := by
      split
      · exact countV_singleton_ne (by simp)
      · exact countV_nil _
    rw [h1]
    rw [collectExcept_ok_eq_flatMap hlvs]
    rw [countV_flatMap_nodup hf0 hnd (fun f hf hne => ?_)]
    · rcases collectExcept_ok_forall hlvs f0 hf0 with ⟨w0, hw0⟩
      have he0 : exVal (lineCountCheck c fs root f0) = w0 := by
        unfold exVal
        rw [hw0]
      rw [he0]
      unfold lineCountCheck at hw0
      split at hw0
      · cases hw0
        split
        · rw [countV_singleton_self]
        · rw [countV_nil]
      · cases hw0
    · rcases collectExcept_ok_forall hlvs f hf with ⟨w2, hw2⟩
      have he2 : exVal (lineCountCheck c fs root f) = w2 := by
        unfold exVal
        rw [hw2]
      rw [he2]
      refine countV_eq_zero (fun hm => ?_)
      rcases mem_lineCountCheck hw2 hm with ⟨hveq, _, _⟩
      have hdrop : f.drop root.length = f0.drop root.length := by
        injection hveq with hh
        exact hh.symm
      exact hne (hinj f hf hdrop)

theorem pyRelativeTo_some_of_pfx {root p : PyPath} (h : root <+: p) :
    pyRelativeTo root p = some (p.drop root.length) := by
  unfold pyRelativeTo
  rw [if_pos ( List.isPrefixOf_iff_prefix.mpr h)]

theorem assetCheck_ok_of_pfx {c : Constraints} {fs : FS} {root p : PyPath}
    (h : root <+: p) : ∃ a, assetCheck c fs root p = Except.ok a := by
  unfold assetCheck
  rw [pyRelativeTo_some_of_pfx h]
  split
  · split
    · exact ⟨_, rfl⟩
    · exact ⟨_, rfl⟩
  · exact ⟨_, rfl⟩

theorem processFile_ok_of_pfx {c : Constraints} {fs : FS} {root p : PyPath}
    {isLocal instr : Bool} (h : root <+: p) :
    ∃ w, processFile c fs root isLocal instr p = Except.ok w := by
  unfold processFile
  split
  · rcases @assetCheck_ok_of_pfx c fs root p h with ⟨a, ha⟩
    rw [ha]
    exact ⟨_, rfl⟩
  · exact ⟨[], rfl⟩

theorem mem_gftc_under_root {root p : PyPath} {isLocal : Bool} {ign : List String}
    {fs : FS} {git : Option String}
    (hgit : ∀ out, git = some out →
      ∀ line ∈ pySplitLines (pyStrip out), pyStartsWith (pyStrip line) "/" = false)
    (h : p ∈ get_files_to_check root isLocal ign fs git) : root <+: p := by
  unfold get_files_to_check at h
  split at h
  · exact (mem_fullEnumeration.mp h).2.1
  · split at h
    · rename_i out
      split at h
      · exact (mem_fullEnumeration.mp h).2.1
      · have hc := (List.mem_filter.mp h).1
        rcases mem_gitCandidates.mp hc with ⟨line, hline, hs, rfl⟩
        unfold pyJoin
        rw [hgit out rfl line hline]
        simp only [Bool.false_eq_true, if_false]
        exact List.prefix_append root _
    · exact (mem_fullEnumeration.mp h).2.1

theorem qDirViolations_count {c : Constraints} {fs : FS} {root q : PyPath}
    {t : Violation} {qvs : List Violation} (hnd : fs.dirs.Nodup)
    (hqv : qDirViolations c fs root = Except.ok qvs)
    (hq : q ∈ questionDirs fs root c.question_pfx)
    (hz : ∀ d ∈ questionDirs fs root c.question_pfx, d ≠ q →
      countV (exVal (qDirBlock c fs root d)) t = 0) :
    countV qvs t = countV (exVal (qDirBlock c fs root q)) t := by
  unfold qDirViolations at hqv
  split at hqv
  · rw [collectExcept_ok_eq_flatMap hqv]
    exact countV_flatMap_nodup hq (questionDirs_nodup hnd) hz
  · cases hqv

theorem pyRelativeTo_eq_some {root p r : PyPath}
    (h : pyRelativeTo root p = some r) : root <+: p ∧ p = root ++ r := by
  unfold pyRelativeTo at h
  split at h
  · rename_i hpre
    have hpre' := List.isPrefixOf_iff_prefix.mp hpre
    cases h
    exact ⟨hpre', prefix_eq_append_drop hpre'⟩
  · cases h

theorem mem_qDirViolations {c : Constraints} {fs : FS} {root : PyPath}
    {v : Violation} {qvs : List Violation}
    (hqv : qDirViolations c fs root = Except.ok qvs) (h : v ∈ qvs) :
    (∃ n, v = Violation.tooManyScripts n) ∨
    (∃ q ∈ questionDirs fs root c.question_pfx,
      ∃ f ∈ globTargetFiles fs (q ++ ["src"]) c.target_ext,
        v = Violation.lineLimitExceeded (f.drop root.length) ∧
          fs.isFile f = true) := by
  unfold qDirViolations at hqv
  split at hqv
  · rcases collectExcept_ok_mem hqv h with ⟨q, hq, w, hw, hv⟩
    rcases qDirBlock_ok_decomp hw with ⟨_, rfl⟩ | ⟨_, lvs, hlvs, rfl⟩
    · simp at hv
    · rcases List.mem_append.mp hv with hv | hv
      · split at hv
        · simp only [List.mem_singleton] at hv
          exact Or.inl ⟨pyName q, hv⟩
        · simp at hv
      · rcases collectExcept_ok_mem hlvs hv with ⟨f, hf, w2, hw2, hv2⟩
        rcases mem_lineCountCheck hw2 hv2 with ⟨hveq, hfile, _⟩
        exact Or.inr ⟨q, hq, f, hf, hveq, hfile⟩
  · cases hqv

theorem countForbidden_append (a b : List Violation) :
    countForbidden (a ++ b) = countForbidden a + countForbidden b :=
  List.countP_append _ a b

theorem countForbidden_assetOk {c : Constraints} {fs : FS} {root p : PyPath}
    {a : List Violation} (ha : assetCheck c fs root p = Except.ok a) :
    countForbidden a = 0 := by
  refine List.countP_eq_zero.mpr (fun v hv => ?_)
  rcases mem_assetCheck ha hv with ⟨r, _, rfl⟩
  simp

theorem countV_assetOk_ne {c : Constraints} {fs : FS} {root p : PyPath}
    {a : List Violation} {t : Violation}
    (ha : assetCheck c fs root p = Except.ok a)
    (ht : ∀ r, t ≠ Violation.assetTooLarge r) : countV a t = 0 := by
  refine countV_eq_zero (fun hmem => ?_)
  rcases mem_assetCheck ha hmem with ⟨r, _, hv⟩
  exact ht r hv

theorem countV_modCheck_ne {c : Constraints} {root p : PyPath}
    {isLocal instr : Bool} {t : Violation}
    (ht : ∀ r, t ≠ Violation.forbiddenModification r) :
    countV (modCheck c root isLocal instr p) t = 0 := by
  refine countV_eq_zero (fun hmem => ?_)
  rcases mem_modCheck hmem with ⟨r, _, hv, _, _⟩
  exact ht r hv

theorem countForbidden_modCheck (c : Constraints) (root : PyPath)
    (isLocal instr : Bool) (p : PyPath) :
    countForbidden (modCheck c root isLocal instr p) =
      if (isLocal || instr) = true then 0
      else match pyRelativeTo root p with
        | none => 0
        | some rel =>
            if (rel.contains "src" || rel.contains "assets"
                || c.whitelisted_files.contains (pyName rel)) = true
              then 0 else 1 := by
  unfold modCheck
  split
  · rfl
  · split
    · rfl
    · split
      · rfl
      · simp [countForbidden]

theorem processFile_ok_decomp {c : Constraints} {fs : FS} {root p : PyPath}
    {isLocal instr : Bool} {vs : List Violation}
    (hex : fs.pexists p = true)
    (hvs : processFile c fs root isLocal instr p = Except.ok vs) :
    ∃ a, assetCheck c fs root p = Except.ok a ∧
      vs = a ++ modCheck c root isLocal instr p := by
  unfold processFile at hvs
  rw [if_pos hex] at hvs
  split at hvs
  · rename_i a ha
    cases hvs
    exact ⟨a, ha, rfl⟩
  · cases hvs

/-- C1: the modification-scope rule fires only in Student-CI mode.  For a
candidate file: in Local or Instructor-Bypass mode the per-file evaluation
yields no forbidden-modification violation; in Student-CI mode
(`isLocal = false`, `instr = false`) an existing candidate that cannot be
relativized to root is skipped by this rule, and one that can yields exactly
one forbidden-modification violation iff its relative path has no `src`
segment, no `assets` segment, and a non-whitelisted filename. -/
theorem spec_c1_modification_scope_rule (fs : FS) (root p : PyPath) :
    (∀ isLocal instr : Bool, (isLocal || instr) = true →
      ∀ vs, processFile defaultConstraints fs root isLocal instr p = Except.ok vs →
        countForbidden vs = 0) ∧
    (fs.pexists p = true →
      ((pyRelativeTo root p = none →
        ∀ vs, processFile defaultConstraints fs root false false p = Except.ok vs →
          countForbidden vs = 0) ∧
      (∀ r, pyRelativeTo root p = some r →
        ∃ vs, processFile defaultConstraints fs root false false p = Except.ok vs ∧
          countForbidden vs =
            (if (r.contains "src" || r.contains "assets"
                || defaultConstraints.whitelisted_files.contains (pyName r)) = true
              then 0 else 1)))) := by
  constructor
  · intro isLocal instr hmode vs hvs
    by_cases hex : fs.pexists p = true
    · rcases processFile_ok_decomp hex hvs with ⟨a, ha, rfl⟩
      rw [countForbidden_append, countForbidden_assetOk ha,
        countForbidden_modCheck, if_pos hmode]
    · have hex' : fs.pexists p = false := by simpa using hex
      rw [processFile_of_not_exists hex'] at hvs
      cases hvs
      rfl
  · intro hex
    constructor
    · intro hrel vs hvs
      rcases processFile_ok_decomp hex hvs with ⟨a, ha, rfl⟩
      rw [countForbidden_append, countForbidden_assetOk ha,
        countForbidden_modCheck, if_neg (by simp), hrel]
      exact Nat.zero_add _
    · intro r hrel
      have hpre := (pyRelativeTo_eq_some hrel).1
      rcases @assetCheck_ok_of_pfx defaultConstraints fs root p hpre
        with ⟨a, ha⟩
      refine ⟨a ++ modCheck defaultConstraints root false false p, ?_, ?_⟩
      · unfold processFile
        rw [if_pos hex, ha]
      · rw [countForbidden_append, countForbidden_assetOk ha,
          countForbidden_modCheck, if_neg (by simp), hrel]
        exact Nat.zero_add _

/-- Repository root used by the concrete witnesses. -/
def sampleRoot : PyPath := ["/", "repo"]

/-- Witness snapshot: a stray notes file, a whitelisted file, a question
directory `q1` whose `src` holds six `.py` files (one of 501 lines), and two
assets, one a byte over the 5 MiB limit and one exactly at it. -/
def sampleFS : FS :=
  ⟨[⟨["/", "repo", "notes.txt"], 10, 1⟩,
    ⟨["/", "repo", "README.md"], 10, 1⟩,
    ⟨["/", "repo", "q1", "src", "a1.py"], 10, 10⟩,
    ⟨["/", "repo", "q1", "src", "a2.py"], 10, 10⟩,
    ⟨["/", "repo", "q1", "src", "a3.py"], 10, 10⟩,
    ⟨["/", "repo", "q1", "src", "a4.py"], 10, 10⟩,
    ⟨["/", "repo", "q1", "src", "a5.py"], 10, 500⟩,
    ⟨["/", "repo", "q1", "src", "a6.py"], 10, 501⟩,
    ⟨["/", "repo", "assets", "big.png"], 5 * 1024 * 1024 + 1, 1⟩,
    ⟨["/", "repo", "assets", "ok.png"], 5 * 1024 * 1024, 1⟩],
   [["/", "repo"], ["/", "repo", "q1"], ["/", "repo", "q1", "src"],
    ["/", "repo", "assets"]]⟩

/-- Snapshot holding only the root directory, used by the success-path
witness. -/
def emptyFS : FS := ⟨[], [["/", "repo"]]⟩

/-- Snapshot in which the root directory itself is missing, so
`root.iterdir()` raises `FileNotFoundError`. -/
def noRootFS : FS := ⟨[], []⟩

/-- C1 witness: in Student-CI mode, the existing candidate
`/repo/notes.txt` (outside `src` and `assets`, not whitelisted) yields
exactly one forbidden-modification violation. -/
theorem spec_c1_witness :
    sampleFS.pexists ["/", "repo", "notes.txt"] = true ∧
    ∃ vs, processFile defaultConstraints sampleFS sampleRoot false false
        ["/", "repo", "notes.txt"] = Except.ok vs ∧ countForbidden vs = 1 := by
  refine ⟨by decide, ?_⟩
  rcases ((spec_c1_modification_scope_rule sampleFS sampleRoot
      ["/", "repo", "notes.txt"]).2 (by decide)).2 ["notes.txt"] (by decide)
    with ⟨vs, hvs, hcount⟩
  exact ⟨vs, hvs, by rw [hcount]; decide⟩

/-- C2: in CI mode, a failed change-detection subprocess or an
empty (after stripping) output falls back to the same full enumeration as
Local mode; a non-empty output yields exactly the stripped non-empty lines
joined onto root, filtered by `should_exclude`. -/
theorem spec_c2_ci_change_detection (root : PyPath) (ign : List String)
    (fs : FS) (git : Option String) :
    (git = none →
      get_files_to_check root false ign fs git =
        get_files_to_check root true ign fs git) ∧
    (∀ out, git = some out → pyStrip out = "" →
      get_files_to_check root false ign fs git =
        get_files_to_check root true ign fs git) ∧
    (∀ out, git = some out → pyStrip out ≠ "" →
      ∀ p, p ∈ get_files_to_check root false ign fs git ↔
        ((∃ line ∈ pySplitLines (pyStrip out),
            pyStrip line ≠ "" ∧ p = pyJoin root (pyStrip line)) ∧
          should_exclude p ign = false)) := by
  refine ⟨?_, ?_, ?_⟩
  · rintro rfl
    rfl
  · rintro out rfl hempty
    simp [get_files_to_check, hempty]
  · rintro out rfl hne p
    simp only [get_files_to_check, if_neg Bool.false_ne_true, if_neg hne]
    rw [List.mem_filter]
    simp only [Bool.not_eq_true', mem_gitCandidates]

/-- C2 witness: a successful diff listing `q1/src/a1.py` makes exactly that
path (joined onto root) a candidate. -/
theorem spec_c2_witness :
    ["/", "repo", "q1", "src", "a1.py"] ∈
      get_files_to_check sampleRoot false defaultConstraints.ignored_parts
        sampleFS (some "q1/src/a1.py\n") := by
  refine ((spec_c2_ci_change_detection sampleRoot defaultConstraints.ignored_parts
      sampleFS (some "q1/src/a1.py\n")).2.2 "q1/src/a1.py\n" rfl (by decide)
      ["/", "repo", "q1", "src", "a1.py"]).mpr ?_
  exact ⟨⟨"q1/src/a1.py", by decide, by decide, by decide⟩, by decide⟩

theorem assetCheck_of_rel {c : Constraints} {fs : FS} {root p r : PyPath}
    (hrel : pyRelativeTo root p = some r) :
    assetCheck c fs root p =
      Except.ok
        (if c.asset_exts.contains (pyLower (pySuffix (pyName p))) = true ∧
            c.max_asset_size_bytes < fs.statSize p
          then [Violation.assetTooLarge r] else []) := by
  unfold assetCheck
  split
  · rename_i hext
    split
    · rename_i hsize
      rw [hrel, if_pos ⟨hext, hsize⟩]
    · rename_i hsize
      rw [if_neg (fun hc => hsize hc.2)]
  · rename_i hext
    rw [if_neg (fun hc => hext hc.1)]

/-- C5: the asset-size rule.  For an existing candidate `p` with relative
path `r`, the per-file evaluation emits the violation naming `p` exactly
when `p`'s lower-cased extension is an asset extension and its size strictly
exceeds 5 MiB; a file exactly at the limit, or with a non-asset extension,
yields none.  The rule runs in every mode. -/
theorem spec_c5_asset_size_rule (fs : FS) (root p : PyPath)
    (isLocal instr : Bool) (hex : fs.pexists p = true) (r : PyPath)
    (hrel : pyRelativeTo root p = some r) :
    ∃ vs, processFile defaultConstraints fs root isLocal instr p = Except.ok vs ∧
      countV vs (Violation.assetTooLarge r) =
        (if defaultConstraints.asset_exts.contains
              (pyLower (pySuffix (pyName p))) = true ∧
            5 * 1024 * 1024 < fs.statSize p
          then 1 else 0) ∧
      (fs.statSize p ≤ 5 * 1024 * 1024 →
        countV vs (Violation.assetTooLarge r) = 0) ∧
      (defaultConstraints.asset_exts.contains
          (pyLower (pySuffix (pyName p))) = false →
        countV vs (Violation.assetTooLarge r) = 0) := by
  have ha := @assetCheck_of_rel defaultConstraints fs root p r hrel
  rw [show defaultConstraints.max_asset_size_bytes = 5 * 1024 * 1024 from rfl] at ha
  refine ⟨_, by unfold processFile; rw [if_pos hex, ha], ?_⟩
  have hmod : countV (modCheck defaultConstraints root isLocal instr p)
      (Violation.assetTooLarge r) = 0 :=
    countV_modCheck_ne (fun r' h => Violation.noConfusion h)
  have hcount : countV
      ((if defaultConstraints.asset_exts.contains
            (pyLower (pySuffix (pyName p))) = true ∧
          5 * 1024 * 1024 < fs.statSize p
        then [Violation.assetTooLarge r] else []) ++
        modCheck defaultConstraints root isLocal instr p)
      (Violation.assetTooLarge r) =
      (if defaultConstraints.asset_exts.contains
            (pyLower (pySuffix (pyName p))) = true ∧
          5 * 1024 * 1024 < fs.statSize p
        then 1 else 0) := by
    rw [countV_append, hmod]
    split
    · rw [countV_singleton_self]
    · rw [countV_nil]
  refine ⟨hcount, ?_, ?_⟩
  · intro hle
    rw [hcount, if_neg (fun hc => absurd hc.2 (not_lt.mpr hle))]
  · intro hni
    rw [hcount, if_neg (fun hc => by rw [hni] at hc; exact Bool.false_ne_true hc.1)]

/-- C5 witness: `/repo/assets/big.png`, one byte over 5 MiB, yields exactly
one asset violation naming it; `/repo/assets/ok.png`, exactly at the limit,
yields none. -/
theorem spec_c5_witness :
    (∃ vs, processFile defaultConstraints sampleFS sampleRoot true false
        ["/", "repo", "assets", "big.png"] = Except.ok vs ∧
      countV vs (Violation.assetTooLarge ["assets", "big.png"]) = 1) ∧
    (∃ vs, processFile defaultConstraints sampleFS sampleRoot true false
        ["/", "repo", "assets", "ok.png"] = Except.ok vs ∧
      countV vs (Violation.assetTooLarge ["assets", "ok.png"]) = 0) := by
  constructor
  · rcases spec_c5_asset_size_rule sampleFS sampleRoot
        ["/", "repo", "assets", "big.png"] true false (by decide)
        ["assets", "big.png"] (by decide) with ⟨vs, h1, h2, _, _⟩
    exact ⟨vs, h1, by rw [h2]; decide⟩
  · rcases spec_c5_asset_size_rule sampleFS sampleRoot
        ["/", "repo", "assets", "ok.png"] true false (by decide)
        ["assets", "ok.png"] (by decide) with ⟨vs, h1, _, h3, _⟩
    exact ⟨vs, h1, h3 (by decide)⟩

/-- C6: the process exits nonzero (status 1), printing the violations table,
exactly when the collected violation sequence is non-empty; otherwise it
prints the success message and exits 0. -/
theorem spec_c6_exit_status (c : Constraints) (fs : FS) (root : PyPath)
    (isLocal instr : Bool) (git : Option String) (res : RunOutcome × Nat)
    (hres : runMain c fs root isLocal instr git = Except.ok res) :
    ∃ vs, collectViolations c fs root isLocal instr git = Except.ok vs ∧
      ((vs = [] ∧ res = (RunOutcome.success, 0)) ∨
        (vs ≠ [] ∧ res = (RunOutcome.table vs, 1))) := by
  unfold runMain at hres
  split at hres
  · rename_i vs hvs
    split at hres
    · rename_i hemp
      cases hres
      exact ⟨vs, hvs, Or.inl ⟨List.isEmpty_iff.mp hemp, rfl⟩⟩
    · rename_i hemp
      cases hres
      exact ⟨vs, hvs, Or.inr ⟨fun hnil => hemp (by rw [hnil]; rfl), rfl⟩⟩
  · cases hres

/-- C6 witness: on an empty snapshot the run collects no violations and
exits 0 with the success message. -/
theorem spec_c6_witness :
    ∃ vs, collectViolations defaultConstraints emptyFS sampleRoot true false
        none = Except.ok vs ∧
      ((vs = [] ∧ ((RunOutcome.success, 0) : RunOutcome × Nat) =
          (RunOutcome.success, 0)) ∨
        (vs ≠ [] ∧ ((RunOutcome.success, 0) : RunOutcome × Nat) =
          (RunOutcome.table vs, 1))) :=
  spec_c6_exit_status defaultConstraints emptyFS sampleRoot true false none
    (RunOutcome.success, 0) rfl

theorem not_mem_evalCandidates_of_not_exists {c : Constraints} {fs : FS}
    {root : PyPath} {isLocal instr : Bool} {cs : List PyPath}
    {cvs : List Violation}
    (hcvs : evalCandidates c fs root isLocal instr cs = Except.ok cvs)
    {p r : PyPath} (h : fs.pexists p = false) (hp : p = root ++ r)
    {v : Violation}
    (hv : v = Violation.forbiddenModification r ∨ v = Violation.assetTooLarge r) :
    v ∉ cvs := by
  intro hmem
  rcases evalCandidates_ok_mem hcvs hmem with ⟨q, hq, w, hw, htw⟩
  rcases mem_processFile hw htw with ⟨hpex, r', hrel', hcase⟩
  have hq' : q = root ++ r' := (pyRelativeTo_eq_some hrel').2
  have hr : r' = r := by
    rcases hv with rfl | rfl
    · rcases hcase with hca | hcf
      · exact Violation.noConfusion hca
      · injection hcf with hh
        exact hh.symm
    · rcases hcase with hca | hcf
      · injection hca with hh
        exact hh.symm
      · exact Violation.noConfusion hcf
  rw [hr, ← hp] at hq'
  rw [hq'] at hpex
  rw [h] at hpex
  exact Bool.false_ne_true hpex

theorem not_mem_evalCandidates_lineLimit {c : Constraints} {fs : FS}
    {root : PyPath} {isLocal instr : Bool} {cs : List PyPath}
    {cvs : List Violation} {r : PyPath}
    (hcvs : evalCandidates c fs root isLocal instr cs = Except.ok cvs) :
    Violation.lineLimitExceeded r ∉ cvs := by
  intro hmem
  rcases evalCandidates_ok_mem hcvs hmem with ⟨q, _, w, hw, htw⟩
  rcases mem_processFile hw htw with ⟨_, r', _, hca | hcf⟩
  · exact Violation.noConfusion hca
  · exact Violation.noConfusion hcf

theorem not_mem_qDirViolations_candidate_kind {c : Constraints} {fs : FS}
    {root : PyPath} {v : Violation} {qvs : List Violation}
    (hqv : qDirViolations c fs root = Except.ok qvs)
    (hv : (∃ r, v = Violation.forbiddenModification r) ∨
      (∃ r, v = Violation.assetTooLarge r)) :
    v ∉ qvs := by
  intro hmem
  rcases mem_qDirViolations hqv hmem with ⟨n, hn⟩ | ⟨q, _, f, _, hveq, _⟩
  · rcases hv with ⟨r, rfl⟩ | ⟨r, rfl⟩
    · exact Violation.noConfusion hn
    · exact Violation.noConfusion hn
  · rcases hv with ⟨r, rfl⟩ | ⟨r, rfl⟩
    · exact Violation.noConfusion hveq
    · exact Violation.noConfusion hveq

theorem not_mem_qDirViolations_lineLimit_of_not_exists {c : Constraints}
    {fs : FS} {root p r : PyPath} {qvs : List Violation}
    (hqv : qDirViolations c fs root = Except.ok qvs)
    (h : fs.pexists p = false) (hp : p = root ++ r) :
    Violation.lineLimitExceeded r ∉ qvs := by
  intro hmem
  rcases mem_qDirViolations hqv hmem with ⟨n, hn⟩ | ⟨q, hq, f, hf, hv, hfile⟩
  · exact Violation.noConfusion hn
  · have hr : f.drop root.length = r := by
      injection hv with hh
      exact hh.symm
    have hqpre : root <+: q := (mem_questionDirs.mp hq).2.1
    have hsrcpre : root <+: q ++ ["src"] :=
      hqpre.trans (List.prefix_append q ["src"])
    have hfpre : root <+: f := hsrcpre.trans (mem_globTargetFiles.mp hf).2.1
    have hfp : f = p := by
      rw [hp, ← hr]
      exact prefix_eq_append_drop hfpre
    have hpex : fs.pexists f = true := by
      unfold FS.pexists
      rw [hfile]
      rfl
    rw [hfp, h] at hpex
    exact Bool.false_ne_true hpex

/-- C10: for a candidate path that does not exist on disk at evaluation time
(such as a file deleted in the diff), the per-file evaluation is skipped
entirely, and the run emits no violation of any kind naming that path — in
particular, in Student-CI mode a deleted file outside `src`, outside
`assets`, and not whitelisted yields no forbidden-modification violation. -/
theorem spec_c10_deleted_candidate (c : Constraints) (fs : FS) (root : PyPath)
    (isLocal instr : Bool) (p : PyPath) (h : fs.pexists p = false) :
    processFile c fs root isLocal instr p = Except.ok [] ∧
    (∀ git vs, collectViolations c fs root isLocal instr git = Except.ok vs →
      ∀ r, p = root ++ r →
        Violation.forbiddenModification r ∉ vs ∧
        Violation.assetTooLarge r ∉ vs ∧
        Violation.lineLimitExceeded r ∉ vs) := by
  refine ⟨processFile_of_not_exists h, ?_⟩
  intro git vs hvs r hp
  unfold collectViolations at hvs
  split at hvs
  · rename_i cvs hcvs
    split at hvs
    · rename_i qvs hqvs
      cases hvs
      refine ⟨?_, ?_, ?_⟩
      · intro hmem
        rcases List.mem_append.mp hmem with hm | hm
        · exact not_mem_evalCandidates_of_not_exists hcvs h hp (Or.inl rfl) hm
        · exact not_mem_qDirViolations_candidate_kind hqvs (Or.inl ⟨r, rfl⟩) hm
      · intro hmem
        rcases List.mem_append.mp hmem with hm | hm
        · exact not_mem_evalCandidates_of_not_exists hcvs h hp (Or.inr rfl) hm
        · exact not_mem_qDirViolations_candidate_kind hqvs (Or.inr ⟨r, rfl⟩) hm
      · intro hmem
        rcases List.mem_append.mp hmem with hm | hm
        · exact not_mem_evalCandidates_lineLimit hcvs hm
        · exact not_mem_qDirViolations_lineLimit_of_not_exists hqvs h hp hm
    · cases hvs
  · cases hvs

/-- C10 witness: the nonexistent candidate `/repo/deleted.txt` is skipped:
its per-file evaluation yields no violations at all. -/
theorem spec_c10_witness :
    processFile defaultConstraints sampleFS sampleRoot false false
      ["/", "repo", "deleted.txt"] = Except.ok [] :=
  (spec_c10_deleted_candidate defaultConstraints sampleFS sampleRoot false
    false ["/", "repo", "deleted.txt"] (by decide)).1

theorem mem_of_getLastQ_eq {α : Type} {l : List α} {a : α}
    (h : l.getLast? = some a) : a ∈ l := by
  cases l with
  | nil => simp at h
  | cons x xs =>
      rw [List.getLast?_eq_getLast _ (by simp)] at h
      rw [Option.some_inj] at h
      rw [← h]
      exact List.getLast_mem _

/-- C9: every path returned by `get_files_to_check`, in both Local and CI
mode, passes the filter on its full part sequence: no segment is in the
ignored set and no segment begins with a dot.  Consequently no candidate
filename begins with a dot — so dot-named whitelist entries such as
`.gitignore` can never reach the modification-scope rule — and a root lying
under a hidden or ignored directory yields an empty Local-mode candidate
list. -/
theorem spec_c9_candidates_pass_filter (root : PyPath) (ign : List String)
    (fs : FS) (git : Option String) (isLocal : Bool) :
    (∀ p ∈ get_files_to_check root isLocal ign fs git,
      should_exclude p ign = false ∧
      (∀ seg ∈ p, ign.contains seg = false ∧ pyStartsWith seg "." = false) ∧
      pyStartsWith (pyName p) "." = false) ∧
    (should_exclude root ign = true →
      get_files_to_check root true ign fs git = []) := by
  constructor
  · intro p hp
    have hex := mem_get_files_to_check_excl hp
    have hseg : ∀ seg ∈ p,
        ign.contains seg = false ∧ pyStartsWith seg "." = false := by
      intro seg hs
      have hall := List.any_eq_false.mp hex seg hs
      simp only [Bool.or_eq_true, not_or] at hall
      exact ⟨Bool.not_eq_true _ ▸ (by simpa using hall.1),
        Bool.not_eq_true _ ▸ (by simpa using hall.2)⟩
    refine ⟨hex, hseg, ?_⟩
    cases hpn : p.getLast? with
    | none =>
        unfold pyName
        rw [hpn]
        rfl
    | some a =>
        unfold pyName
        rw [hpn]
        exact (hseg a (mem_of_getLastQ_eq hpn)).2
  · intro hroot
    unfold get_files_to_check
    rw [if_pos rfl]
    unfold fullEnumeration
    refine List.filter_eq_nil_iff.mpr (fun p hp => ?_)
    have hpre : root <+: p := (mem_rglobFiles.mp hp).2.1
    rcases List.any_eq_true.mp hroot with ⟨seg, hsm, hsp⟩
    have : should_exclude p ign = true :=
      List.any_eq_true.mpr ⟨seg, hpre.subset hsm, hsp⟩
    simp [this]

/-- C9 witness: the hidden-root case — a root ending in a dot-directory
yields an empty Local-mode candidate list. -/
theorem spec_c9_witness :
    get_files_to_check ["/", "repo", ".cache"] true
      defaultConstraints.ignored_parts sampleFS none = [] :=
  (spec_c9_candidates_pass_filter ["/", "repo", ".cache"]
    defaultConstraints.ignored_parts sampleFS none true).2 (by decide)

/-- Crash fixture: question directory `q1` whose `src` holds six `.py`
regular files (one of 501 lines) and, crucially, a subdirectory named
`d.py`, which `glob("*.py")` also returns. -/
def crashFS : FS :=
  ⟨[⟨["/", "repo", "q1", "src", "a1.py"], 10, 10⟩,
    ⟨["/", "repo", "q1", "src", "a2.py"], 10, 10⟩,
    ⟨["/", "repo", "q1", "src", "a3.py"], 10, 10⟩,
    ⟨["/", "repo", "q1", "src", "a4.py"], 10, 10⟩,
    ⟨["/", "repo", "q1", "src", "a5.py"], 10, 10⟩,
    ⟨["/", "repo", "q1", "src", "a6.py"], 10, 501⟩],
   [["/", "repo"], ["/", "repo", "q1"], ["/", "repo", "q1", "src"],
    ["/", "repo", "q1", "src", "d.py"]]⟩

/-- C7: the run can in fact raise, against the claimed failure policy.  On
`crashFS` the line-count loop reaches the directory `q1/src/d.py` (returned
by `glob("*.py")`) and `open` raises an uncaught `IsADirectoryError`; on
`noRootFS` the question-directory scan raises at `root.iterdir()` (uncaught
`FileNotFoundError`).  In both cases the run aborts: neither the violations
table nor the success message is printed. -/
theorem spec_c7_crash_evaluation :
    collectViolations defaultConstraints crashFS sampleRoot true false none =
      Except.error () ∧
    collectViolations defaultConstraints noRootFS sampleRoot true false none =
      Except.error () ∧
    runMain defaultConstraints crashFS sampleRoot true false none =
      Except.error () :=
  ⟨rfl, rfl, rfl⟩

/-- Consecutive entries in non-decreasing string-key order (helper for the
spec-side sortedness notion). -/
def sortedByPathKeyB : List PyPath → Bool
  | [] => true
  | [_] => true
  | a :: b :: rest => pathLeB a b && sortedByPathKeyB (b :: rest)

/-- Modelled from the spec's words, for the refinement comparison only:
"order arbitrary but must be deterministic for testability — sort by path".
A list is sorted by path when consecutive entries are in non-decreasing
string-key order. -/
def sortedByPathKey (l : List PyPath) : Prop := sortedByPathKeyB l = true

/-- C8 counterexample fixture: a snapshot whose enumeration yields two kept
files in non-sorted order. -/
def unsortedFS : FS :=
  ⟨[⟨["/", "repo", "b.txt"], 1, 1⟩, ⟨["/", "repo", "a.txt"], 1, 1⟩],
   [["/", "repo"]]⟩

/-- C8 counterexample: `get_files_to_check` applies no sort in Local mode;
on `unsortedFS` it returns the filtered enumeration in traversal order,
which is not sorted by path, refuting the claim's "sorted by path". -/
theorem spec_c8_counterexample :
    get_files_to_check sampleRoot true defaultConstraints.ignored_parts
        unsortedFS none =
      [["/", "repo", "b.txt"], ["/", "repo", "a.txt"]] ∧
    ¬ sortedByPathKey [["/", "repo", "b.txt"], ["/", "repo", "a.txt"]] := by
  constructor
  · decide
  · unfold sortedByPathKey
    decide

/-- C8 (amended): in Local mode `get_files_to_check` returns exactly the
recursive enumeration of the files strictly under root that pass the
PathFilter, in the order of the underlying enumeration (a sublist of it);
no sort is applied. -/
theorem spec_c8_local_enumeration (root : PyPath) (ign : List String)
    (fs : FS) (git : Option String) :
    (∀ p, p ∈ get_files_to_check root true ign fs git ↔
      ((∃ f ∈ fs.files, f.path = p) ∧ root <+: p ∧ p ≠ root ∧
        should_exclude p ign = false)) ∧
    (get_files_to_check root true ign fs git).Sublist
      (fs.files.map (fun f => f.path)) := by
  constructor
  · intro p
    unfold get_files_to_check
    rw [if_pos rfl]
    exact mem_fullEnumeration
  · unfold get_files_to_check
    rw [if_pos rfl]
    exact (List.filter_sublist _).trans (List.filter_sublist _)

/-- C8 witness: on the sample snapshot the Local-mode candidate list
contains `/repo/notes.txt` via the amended characterization. -/
theorem spec_c8_witness :
    ["/", "repo", "notes.txt"] ∈ get_files_to_check sampleRoot true
      defaultConstraints.ignored_parts sampleFS none := by
  refine ((spec_c8_local_enumeration sampleRoot
      defaultConstraints.ignored_parts sampleFS none).1 _).mpr ?_
  exact ⟨⟨⟨["/", "repo", "notes.txt"], 10, 1⟩, by decide, rfl⟩,
    by decide, by decide, by decide⟩

/-- C3 counterexample: on `crashFS`, `q1/src` holds six regular `.py`
files — strictly more than the maximum of 5 — so the claim predicts exactly
one "too many scripts" violation regardless of contents; but
`glob("*.py")` also returns the subdirectory `d.py` (seven entries in all),
the line-count loop crashes opening it, and the aborted run reports no
violation at all. -/
theorem spec_c3_counterexample :
    ((crashFS.files.map (fun f => f.path)).filter
        (fun p => (["/", "repo", "q1", "src"] : PyPath).isPrefixOf p &&
          p.length == 5 && pyEndsWith (pyName p) ".py")).length = 6 ∧
    (globTargetFiles crashFS ["/", "repo", "q1", "src"] ".py").length = 7 ∧
    ¬ ∃ vs, collectViolations defaultConstraints crashFS sampleRoot true false
        none = Except.ok vs := by
  refine ⟨rfl, rfl, ?_⟩
  rintro ⟨vs, hvs⟩
  rw [show collectViolations defaultConstraints crashFS sampleRoot true false
      none = Except.error () from rfl] at hvs
  cases hvs

/-- C3 (amended): independent of the candidate list and of mode, on a run
that completes, the engine emits exactly one "too many scripts" violation
for a question directory `q` (direct child of root, name starting with
"q", with an existing `src` subdirectory) iff the number of entries —
`glob` returns regular files and directories alike — directly inside
`q/src` matching `*.py` strictly exceeds 5, regardless of file contents;
completion moreover forces every matching entry to be a regular file,
since a matching directory aborts the run at the subsequent `open`. -/
theorem spec_c3_source_file_count (fs : FS) (root q : PyPath)
    (hnd : fs.dirs.Nodup) (hqdir : q ∈ fs.dirs)
    (hpre : root <+: q) (hlen : q.length = root.length + 1)
    (hname : pyStartsWith (pyName q) "q" = true)
    (hsrc : fs.pexists (q ++ ["src"]) = true)
    (isLocal instr : Bool) (git : Option String) (vs : List Violation)
    (hvs : collectViolations defaultConstraints fs root isLocal instr git =
      Except.ok vs) :
    countV vs (Violation.tooManyScripts (pyName q)) =
      (if 5 < (globTargetFiles fs (q ++ ["src"]) ".py").length
        then 1 else 0) ∧
    (∀ p ∈ globTargetFiles fs (q ++ ["src"]) ".py", fs.isFile p = true) := by
  unfold collectViolations at hvs
  split at hvs
  · rename_i cvs hcvs
    split at hvs
    · rename_i qvs hqvs
      cases hvs
      have hqmem : q ∈ questionDirs fs root defaultConstraints.question_pfx :=
        mem_questionDirs.mpr ⟨hqdir, hpre, hlen, hname⟩
      have hqok : ∃ w, qDirBlock defaultConstraints fs root q =
          Except.ok w := by
        unfold qDirViolations at hqvs
        split at hqvs
        · exact collectExcept_ok_forall hqvs q hqmem
        · cases hqvs
      rcases hqok with ⟨wq, hwq⟩
      have hfiles : ∀ p ∈ globTargetFiles fs (q ++ ["src"]) ".py",
          fs.isFile p = true := by
        intro p hp
        rcases qDirBlock_ok_decomp hwq with ⟨hex, _⟩ | ⟨_, lvs, hlvs, _⟩
        · rw [hsrc] at hex
          cases hex
        · rcases collectExcept_ok_forall hlvs p hp with ⟨w2, hw2⟩
          unfold lineCountCheck at hw2
          split at hw2
          · rename_i hfile
            exact hfile
          · cases hw2
      refine ⟨?_, hfiles⟩
      rw [countV_append]
      have h1 : countV cvs (Violation.tooManyScripts (pyName q)) = 0 := by
        refine countV_eq_zero (fun hmem => ?_)
        rcases evalCandidates_ok_mem hcvs hmem with ⟨p1, _, w, hw, htw⟩
        rcases mem_processFile hw htw with ⟨_, r1, _, hca | hcf⟩
        · exact Violation.noConfusion hca
        · exact Violation.noConfusion hcf
      rw [h1]
      have hz : ∀ d ∈ questionDirs fs root defaultConstraints.question_pfx,
          d ≠ q → countV (exVal (qDirBlock defaultConstraints fs root d))
            (Violation.tooManyScripts (pyName q)) = 0 := by
        intro d hd hne
        refine countV_exVal_qDirBlock_tooMany_other (fun hnm => hne ?_)
        have hdq := mem_questionDirs.mp hd
        have h2 := child_eq_append hdq.2.1 hdq.2.2.1
        have h3 := child_eq_append hpre hlen
        rw [hnm] at h2
        rw [← h3] at h2
        exact h2
      rw [qDirViolations_count hnd hqvs hqmem hz]
      have hexv : exVal (qDirBlock defaultConstraints fs root q) = wq := by
        unfold exVal
        rw [hwq]
      rw [hexv, countV_qDirBlock_tooMany_self hwq]
      rw [show defaultConstraints.max_src_files = 5 from rfl,
        show defaultConstraints.target_ext = ".py" from rfl]
      by_cases h5 : 5 < (globTargetFiles fs (q ++ ["src"]) ".py").length
      · rw [if_pos ⟨hsrc, h5⟩, if_pos h5]
      · rw [if_neg (fun hc => h5 hc.2), if_neg h5]
    · cases hvs
  · cases hvs

/-- C3 witness: `q1/src` with six `.py` regular files and no matching
directory yields exactly one "too many scripts" violation in a completed
Local run with no diff available. -/
theorem spec_c3_witness :
    countV [Violation.assetTooLarge ["assets", "big.png"],
        Violation.tooManyScripts "q1",
        Violation.lineLimitExceeded ["q1", "src", "a6.py"]]
      (Violation.tooManyScripts (pyName ["/", "repo", "q1"])) =
      (if 5 < (globTargetFiles sampleFS (["/", "repo", "q1"] ++ ["src"])
          ".py").length then 1 else 0) ∧
    (∀ p ∈ globTargetFiles sampleFS (["/", "repo", "q1"] ++ ["src"]) ".py",
      sampleFS.isFile p = true) :=
  spec_c3_source_file_count sampleFS sampleRoot ["/", "repo", "q1"]
    (by decide) (by decide) (by decide) (by decide) (by decide) (by decide)
    true false none _ rfl

/-- C4 counterexample: on `crashFS` the 501-line regular file
`q1/src/a6.py` is among the globbed sources, so the claim predicts exactly
one violation naming it; but `glob("*.py")` also returns the subdirectory
`d.py`, `open` crashes on it, and the aborted run reports nothing. -/
theorem spec_c4_counterexample :
    crashFS.lineCountOf ["/", "repo", "q1", "src", "a6.py"] = 501 ∧
    ["/", "repo", "q1", "src", "a6.py"] ∈
      globTargetFiles crashFS ["/", "repo", "q1", "src"] ".py" ∧
    ¬ ∃ vs, collectViolations defaultConstraints crashFS sampleRoot true false
        none = Except.ok vs := by
  refine ⟨rfl, by decide, ?_⟩
  rintro ⟨vs, hvs⟩
  rw [show collectViolations defaultConstraints crashFS sampleRoot true false
      none = Except.error () from rfl] at hvs
  cases hvs

/-- C4 (amended): for every source entry counted by the source-file-count
rule, on a run that completes (which forces that entry to be a regular
file, read with decode errors ignored — the snapshot `lineCount` field),
exactly one violation naming it is emitted iff its line count strictly
exceeds 500: a 501-line file yields exactly one, a 500-line file none; a
matching directory instead aborts the run at `open` with nothing
reported. -/
theorem spec_c4_source_line_count (fs : FS) (root q f0 : PyPath)
    (hnd : fs.dirs.Nodup) (hend : fs.entries.Nodup)
    (hqdir : q ∈ fs.dirs) (hpre : root <+: q)
    (hlen : q.length = root.length + 1)
    (hname : pyStartsWith (pyName q) "q" = true)
    (hsrc : fs.pexists (q ++ ["src"]) = true)
    (hf0 : f0 ∈ globTargetFiles fs (q ++ ["src"]) ".py")
    (isLocal instr : Bool) (git : Option String) (vs : List Violation)
    (hvs : collectViolations defaultConstraints fs root isLocal instr git =
      Except.ok vs) :
    countV vs (Violation.lineLimitExceeded (f0.drop root.length)) =
      (if 500 < fs.lineCountOf f0 then 1 else 0) := by
  have hext : defaultConstraints.target_ext = ".py" := rfl
  rw [← hext] at hf0
  have hqsrcpre : (q ++ ["src"]) <+: f0 := (mem_globTargetFiles.mp hf0).2.1
  have hf0pre : root <+: f0 :=
    (hpre.trans (List.prefix_append q ["src"])).trans hqsrcpre
  unfold collectViolations at hvs
  split at hvs
  · rename_i cvs hcvs
    split at hvs
    · rename_i qvs hqvs
      cases hvs
      rw [countV_append,
        countV_eq_zero (not_mem_evalCandidates_lineLimit hcvs)]
      have hqmem : q ∈ questionDirs fs root defaultConstraints.question_pfx :=
        mem_questionDirs.mpr ⟨hqdir, hpre, hlen, hname⟩
      have hqok : ∃ w, qDirBlock defaultConstraints fs root q =
          Except.ok w := by
        unfold qDirViolations at hqvs
        split at hqvs
        · exact collectExcept_ok_forall hqvs q hqmem
        · cases hqvs
      rcases hqok with ⟨wq, hwq⟩
      have hz : ∀ d ∈ questionDirs fs root defaultConstraints.question_pfx,
          d ≠ q → countV (exVal (qDirBlock defaultConstraints fs root d))
            (Violation.lineLimitExceeded (f0.drop root.length)) = 0 := by
        intro d hd hne
        refine countV_exVal_qDirBlock_lineLimit_other (fun f hf heq => ?_)
        have hdq := mem_questionDirs.mp hd
        have hdsrc : (d ++ ["src"]) <+: f := (mem_globTargetFiles.mp hf).2.1
        have hfpre : root <+: f :=
          (hdq.2.1.trans (List.prefix_append d ["src"])).trans hdsrc
        have hff0 : f = f0 := eq_of_drop_eq hfpre hf0pre heq
        have hp1 : (d ++ ["src"]) <+: f0 := hff0 ▸ hdsrc
        have hlen2 : (d ++ ["src"]).length = (q ++ ["src"]).length := by
          simp [hdq.2.2.1, hlen]
        exact hne (List.append_cancel_right
          (prefix_eq_of_length_eq hp1 hqsrcpre hlen2))
      rw [qDirViolations_count hnd hqvs hqmem hz]
      have hexv : exVal (qDirBlock defaultConstraints fs root q) = wq := by
        unfold exVal
        rw [hwq]
      have hglobnd : (globTargetFiles fs (q ++ ["src"])
          defaultConstraints.target_ext).Nodup := hend.filter _
      have hinj : ∀ f ∈ globTargetFiles fs (q ++ ["src"])
          defaultConstraints.target_ext,
          f.drop root.length = f0.drop root.length → f = f0 := by
        intro f hf heq
        have hfpre : root <+: f :=
          (hpre.trans (List.prefix_append q ["src"])).trans
            (mem_globTargetFiles.mp hf).2.1
        exact eq_of_drop_eq hfpre hf0pre heq
      rw [hexv, countV_qDirBlock_lineLimit_self hwq hglobnd hf0 hsrc hinj]
      rw [show defaultConstraints.max_line_count = 500 from rfl]
      exact Nat.zero_add _
    · cases hvs
  · cases hvs

/-- C4 witness: the 501-line regular file `q1/src/a6.py` yields exactly one
line-limit violation naming it in a completed Local run with no diff
available. -/
theorem spec_c4_witness :
    countV [Violation.assetTooLarge ["assets", "big.png"],
        Violation.tooManyScripts "q1",
        Violation.lineLimitExceeded ["q1", "src", "a6.py"]]
      (Violation.lineLimitExceeded
        (["/", "repo", "q1", "src", "a6.py"].drop sampleRoot.length)) =
      (if 500 < sampleFS.lineCountOf ["/", "repo", "q1", "src", "a6.py"]
        then 1 else 0) :=
  spec_c4_source_line_count sampleFS sampleRoot ["/", "repo", "q1"]
    ["/", "repo", "q1", "src", "a6.py"]
    (by decide) (by decide) (by decide) (by decide) (by decide) (by decide)
    (by decide) (by decide) true false none _ rfl
